import Mathlib

/-!
Verification of `convert_diet_files.py`: a layout-inference scanner that
extracts food records from a spreadsheet cell grid, plus the final filter
in `main` that drops records whose four macro fields are all missing.

Shallow embedding notes:
* A spreadsheet cell (as surfaced by the external grid reader) is one of:
  absent (`Cell.none`, Python `None`), a floating-point number
  (`Cell.float`), or a text string (`Cell.str`).
* Python floats are modelled by `PFloat`: `nan`, the two infinities, and
  finite values carried as exact rationals.  No claim depends on binary64
  rounding; every numeric value in the program is passed through verbatim.
* Python's builtin `float(str)` conversion is modelled by `pyStrToFloat?`
  over the grammar: optional whitespace, optional sign, then either an
  `inf`/`infinity`/`nan` spelling (case-insensitive) or a decimal literal
  `digits [. digits] [(e|E) [sign] digits]` with underscore digit
  separators allowed strictly between digits.  (CPython additionally
  accepts non-ASCII Unicode digits and some extra Unicode whitespace;
  those are outside this model and outside every claim.)
* The grid reader (pandas `read_excel`) materialises a rectangular frame,
  padding short rows with NaN; `cellAt` returns NaN beyond a row's extent
  accordingly.
-/

/-- A Python float value: NaN, ±infinity, or a finite value (modelled as an
exact rational, since the program never does float arithmetic). -/
inductive PFloat where
  | nan : PFloat
  | inf : PFloat
  | ninf : PFloat
  | fin (q : ℚ) : PFloat
deriving DecidableEq

/-- A cell value as surfaced by the external grid reader:
Python `None`, a float, or a text string. -/
inductive Cell where
  | none : Cell
  | float (f : PFloat) : Cell
  | str (s : String) : Cell
deriving DecidableEq

/-- The in-memory sheet: a list of rows of cells. -/
abbrev Grid := List (List Cell)

/-- `df.iloc[i, j]`.  pandas pads ragged rows with NaN when reading the
sheet, so positions beyond a stored row's extent read as NaN. -/
def cellAt (g : Grid) (i j : Nat) : Cell :=
  match g.get? i with
  | some row => (row.get? j).getD (Cell.float PFloat.nan)
  | Option.none => Cell.float PFloat.nan

/-- Whitespace characters stripped by Python's `str.strip()` and by
`float()` (ASCII whitespace plus NEL and NBSP). -/
def pyIsSpace (c : Char) : Bool :=
  c = ' ' || c = '\t' || c = '\n' || c = '\r' ||
  c = '\x0b' || c = '\x0c' || c = '\x85' || c = '\xa0'

/-- Python `s.strip()` on a character list: drop leading and trailing
whitespace. -/
def pyStripList (l : List Char) : List Char :=
  ((l.dropWhile pyIsSpace).reverse.dropWhile pyIsSpace).reverse

/-- `_strip_spaces`: `s.replace("\xa0", "").strip()` — remove every
non-breaking space, then trim leading/trailing whitespace. -/
def strip_spaces (s : String) : String :=
  String.mk (pyStripList (s.toList.filter (fun c => !(c = '\xa0'))))

/-- `_is_blank`: Python `None`, a float NaN (`pd.isna`), or a string that
is empty after `_strip_spaces`. -/
def is_blank (v : Cell) : Bool :=
  match v with
  | Cell.none => true
  | Cell.float f => f = PFloat.nan
  | Cell.str s => strip_spaces s = ""

/-- ASCII decimal digit test (the model's own helper; CPython's `float`
additionally accepts non-ASCII Unicode digits, not modelled). -/
def isDig (c : Char) : Bool := decide (48 ≤ c.toNat ∧ c.toNat ≤ 57)

/-- ASCII lower-casing, used to model `float`'s case-insensitive
`inf` / `infinity` / `nan` spellings. -/
def lowerAscii (c : Char) : Char :=
  if 65 ≤ c.toNat ∧ c.toNat ≤ 90 then Char.ofNat (c.toNat + 32) else c

/-- Strip one optional leading sign; returns (is-negative, rest). -/
def splitSign (l : List Char) : Bool × List Char :=
  match l with
  | [] => (false, [])
  | c :: rest =>
      if c = '-' then (true, rest)
      else if c = '+' then (false, rest)
      else (false, c :: rest)

/-- Split at the first `e`/`E` (exponent marker), if any. -/
def splitExp : List Char → List Char × Option (List Char)
  | [] => ([], Option.none)
  | c :: rest =>
      if c = 'e' || c = 'E' then ([], some rest)
      else
        let p := splitExp rest
        (c :: p.1, p.2)

/-- Split at the first `.` (decimal point), if any. -/
def splitDot : List Char → List Char × Option (List Char)
  | [] => ([], Option.none)
  | c :: rest =>
      if c = '.' then ([], some rest)
      else
        let p := splitDot rest
        (c :: p.1, p.2)

/-- Tail of a digit run: digits, with each underscore immediately
surrounded by digits. -/
def validTail : List Char → Bool
  | [] => true
  | [c] => isDig c
  | c :: c2 :: rest =>
      if isDig c then validTail (c2 :: rest)
      else if c = '_' then isDig c2 && validTail rest
      else false

/-- A (possibly empty) digit run with underscore separators strictly
between digits, as in Python's float literal grammar. -/
def validRun : List Char → Bool
  | [] => true
  | c :: rest => isDig c && validTail rest

/-- Numeric value of a digit run, ignoring underscores. -/
def runValue (l : List Char) : Nat :=
  l.foldl (fun a c => if isDig c then a * 10 + (c.toNat - 48) else a) 0

/-- Number of digits in a run (underscores excluded). -/
def runDigits (l : List Char) : Nat := (l.filter isDig).length

/-- Signed mantissa value: integer part plus fractional part. -/
def mantVal (neg : Bool) (ip fp : List Char) : ℚ :=
  let m : ℚ := (runValue ip : ℚ) + (runValue fp : ℚ) / (10 : ℚ) ^ (runDigits fp)
  if neg then -m else m

/-- Apply a decimal exponent to a mantissa. -/
def applyExp (q : ℚ) (eneg : Bool) (e : Nat) : ℚ :=
  if eneg then q / (10 : ℚ) ^ e else q * (10 : ℚ) ^ e

/-- Model of Python's builtin `float(s)` on a string: `some` the parsed
value, `none` when `float` would raise `ValueError`. -/
def pyStrToFloat? (s : String) : Option PFloat :=
  let l := pyStripList s.toList
  let sn := splitSign l
  let low := sn.2.map lowerAscii
  if low = ['i', 'n', 'f'] || low = ['i', 'n', 'f', 'i', 'n', 'i', 't', 'y'] then
    some (if sn.1 then PFloat.ninf else PFloat.inf)
  else if low = ['n', 'a', 'n'] then some PFloat.nan
  else
    let se := splitExp sn.2
    let sd := splitDot se.1
    let ip := sd.1
    let fp := (sd.2).getD []
    if validRun ip && validRun fp && decide (1 ≤ runDigits ip + runDigits fp) then
      match se.2 with
      | Option.none => some (PFloat.fin (mantVal sn.1 ip fp))
      | some e =>
          let es := splitSign e
          if validRun es.2 && decide (1 ≤ runDigits es.2) then
            some (PFloat.fin (applyExp (mantVal sn.1 ip fp) es.1 (runValue es.2)))
          else Option.none
    else Option.none

/-- Model of Python's `float(v)` on a cell value: floats convert to
themselves (NaN included), `None` raises `TypeError`, strings parse per
`pyStrToFloat?`. -/
def pyFloat? (v : Cell) : Option PFloat :=
  match v with
  | Cell.none => Option.none
  | Cell.float f => some f
  | Cell.str s => pyStrToFloat? s

/-- `_is_number`: `try: float(v); return True; except: return False`. -/
def is_number (v : Cell) : Bool := (pyFloat? v).isSome

/-- Model of Python's `str(v)` on a cell value.  The decimal rendering of
a non-integral finite float is not modelled faithfully (no claim depends
on it); integral floats render as Python does (`150.0`). -/
def pyStr (v : Cell) : String :=
  match v with
  | Cell.none => "None"
  | Cell.str s => s
  | Cell.float PFloat.nan => "nan"
  | Cell.float PFloat.inf => "inf"
  | Cell.float PFloat.ninf => "-inf"
  | Cell.float (PFloat.fin q) =>
      if q.den = 1 then toString q.num ++ ".0" else toString q

/-- Does `needle` occur as a contiguous substring (Python's `in`)? -/
def hasSub (needle : List Char) : List Char → Bool
  | [] => needle.isEmpty
  | c :: rest => needle.isPrefixOf (c :: rest) || hasSub needle rest

/-- Python's `needle in hay` on strings. -/
def strContains (hay needle : String) : Bool := hasSub needle.toList hay.toList

/-- One output row of the scanner.  Field names map to the source's dict
keys: date=날짜, name=이름, qty=양, meal=분류, fat=지방, carb=탄수화물,
protein=단백질, cal=칼로리. -/
structure Record where
  date : String
  name : String
  qty : String
  meal : String
  fat : Option PFloat
  carb : Option PFloat
  protein : Option PFloat
  cal : Option PFloat
deriving DecidableEq

/-- The per-row meal-section update (step 1 of the scanner loop): a text
cell containing a recognized keyword moves the cursor, checked in the
source's `elif` order; any other cell leaves it unchanged. -/
def updateMeal (first : Cell) (cur : Option String) : Option String :=
  match first with
  | Cell.str s =>
      let cell := strip_spaces s
      if strContains cell "아침" then some "아침 식사"
      else if strContains cell "점심" then some "점심 식사"
      else if strContains cell "저녁" then some "저녁 식사"
      else if strContains cell "간식/기타" || strContains cell "간식기타" then
        some "간식/기타"
      else cur
  | _ => cur

/-- The macro candidate cells of row `i`: columns 1–4. -/
def macroCells (g : Grid) (i : Nat) : List Cell :=
  [cellAt g i 1, cellAt g i 2, cellAt g i 3, cellAt g i 4]

/-- The source's lookahead `while` loop: starting at row `r`, skip rows
whose column-0 cell is blank; stops at the first non-blank row below `n`,
or at/past `n`.  `fuel` bounds the iteration count; every call in the
scanner passes `fuel = n`, which always suffices. -/
def scanNonBlank (g : Grid) (n : Nat) : Nat → Nat → Nat
  | 0, r => r
  | fuel + 1, r =>
      if r < n then
        if is_blank (cellAt g r 0) then scanNonBlank g n fuel (r + 1) else r
      else r

/-- The scanner's main loop (`for i in range(n_rows)` of
`parse_diet_file`), processing rows `i, i+1, …` while `fuel` lasts;
`parse_diet_file` starts it with `fuel = n = ` the row count. -/
def parseRows (g : Grid) (dateStr : String) (n : Nat) :
    Nat → Nat → Option String → List Record
  | 0, _, _ => []
  | fuel + 1, i, cur =>
      let cur2 := updateMeal (cellAt g i 0) cur
      if is_blank (cellAt g i 0) then
        if (macroCells g i).any is_number then
          match cur2 with
          | Option.none => parseRows g dateStr n fuel (i + 1) cur2
          | some meal =>
              let nameRow := scanNonBlank g n n (i + 1)
              if nameRow < n then
                let qtyRow := scanNonBlank g n n (nameRow + 1)
                { date := dateStr,
                  name := strip_spaces (pyStr (cellAt g nameRow 0)),
                  qty :=
                    if qtyRow < n ∧ is_blank (cellAt g qtyRow 0) = false then
                      strip_spaces (pyStr (cellAt g qtyRow 0))
                    else "",
                  meal := meal,
                  fat := pyFloat? (cellAt g i 1),
                  carb := pyFloat? (cellAt g i 2),
                  protein := pyFloat? (cellAt g i 3),
                  cal := pyFloat? (cellAt g i 4) }
                :: parseRows g dateStr n fuel (i + 1) cur2
              else parseRows g dateStr n fuel (i + 1) cur2
        else parseRows g dateStr n fuel (i + 1) cur2
      else parseRows g dateStr n fuel (i + 1) cur2

/-- The sheet's date string: `_strip_spaces(str(df.iloc[0,0]))` unless the
cell is Python `None`, in which case the empty string. -/
def dateStrOf (g : Grid) : String :=
  if cellAt g 0 0 = Cell.none then "" else strip_spaces (pyStr (cellAt g 0 0))

/-- `parse_diet_file` on an already-materialised grid: scan every row,
meal cursor starting undefined. -/
def parse_diet_file (g : Grid) : List Record :=
  parseRows g (dateStrOf g) g.length g.length 0 Option.none

/-- Is a macro field missing in the output sense (`pd.isna`):
`None` or NaN? -/
def fieldIsNA (x : Option PFloat) : Bool :=
  match x with
  | Option.none => true
  | some PFloat.nan => true
  | some _ => false

/-- All four macro fields missing (`mask_all_empty` in `main`). -/
def allNA (r : Record) : Bool :=
  fieldIsNA r.fat && fieldIsNA r.carb && fieldIsNA r.protein && fieldIsNA r.cal

/-- The record filter of `main`: drop rows whose four macro fields are all
missing, keeping the rest in order. -/
def filterRecords (rs : List Record) : List Record :=
  rs.filter (fun r => !allNA r)

/-- The section keyword (if any) contained in a cell, ignoring any prior
cursor value. -/
def sectionOf (c : Cell) : Option String := updateMeal c Option.none

/-- The section of the most recent row strictly below index `i` whose
column-0 cell contains a recognized keyword (specification-side view of
the meal cursor before processing row `i`). -/
def lastKeyword (g : Grid) : Nat → Option String
  | 0 => Option.none
  | i + 1 =>
      match sectionOf (cellAt g i 0) with
      | some m => some m
      | Option.none => lastKeyword g i

/-- Concrete sheet for witnesses: NaN date cell, one breakfast entry. -/
def gW10 : Grid :=
  [[Cell.float PFloat.nan],
   [Cell.str "아침 식사"],
   [Cell.float PFloat.nan, Cell.float (PFloat.fin 1), Cell.float PFloat.nan,
    Cell.float PFloat.nan, Cell.float PFloat.nan],
   [Cell.str "밥"],
   [Cell.str "한 공기"]]

/-- The single record `parse_diet_file` produces for `gW10`. -/
def rW10 : Record :=
  { date := "nan", name := "밥", qty := "한 공기", meal := "아침 식사",
    fat := some (PFloat.fin 1), carb := some PFloat.nan,
    protein := some PFloat.nan, cal := some PFloat.nan }

/-- A date string used by scanner-level witnesses. -/
def dW : String := "화요일 2025년 11월 11일"

/-- Witness sheet fragment for the lookahead-skip claim: macro row, blank,
name, blank, quantity. -/
def gW3 : Grid :=
  [[Cell.float PFloat.nan, Cell.float (PFloat.fin 150),
    Cell.float (PFloat.fin 20), Cell.float (PFloat.fin 5),
    Cell.float (PFloat.fin 180)],
   [Cell.float PFloat.nan],
   [Cell.str "오트밀"],
   [Cell.float PFloat.nan],
   [Cell.str "1 그릇"]]

/-- Witness sheet for the pre-keyword-skip claim: a macro row with a valid
lookahead before any section keyword row. -/
def gW4 : Grid :=
  [[Cell.float PFloat.nan, Cell.float (PFloat.fin 1)],
   [Cell.str "아침 식사"]]

/-- Witness sheet for the name-exhaustion claim: a macro row followed only
by blank column-0 cells. -/
def gW5 : Grid :=
  [[Cell.str "아침 식사"],
   [Cell.float PFloat.nan, Cell.float (PFloat.fin 1)],
   [Cell.float PFloat.nan]]

/-- Witness sheet for the quantity-exhaustion claim: a macro row, a name
row, then only blank column-0 cells. -/
def gW6 : Grid :=
  [[Cell.float PFloat.nan, Cell.float (PFloat.fin 2)],
   [Cell.str "사과"],
   [Cell.float PFloat.nan]]

theorem dropWhile_head_false {α : Type} (p : α → Bool) (l : List α) :
    ∀ c, (l.dropWhile p).head? = some c → p c = false := by
  induction l with
  | nil => intro c h; simp [List.dropWhile] at h
  | cons a l ih =>
    intro c h
    by_cases hp : p a = true
    · rw [List.dropWhile_cons_of_pos hp] at h
      exact ih c h
    · rw [List.dropWhile_cons_of_neg hp] at h
      simp only [List.head?_cons, Option.some.injEq] at h
      subst h
      simpa using hp

theorem dropWhile_suffix_ex {α : Type} (p : α → Bool) (l : List α) :
    ∃ t, t ++ l.dropWhile p = l := by
  induction l with
  | nil => exact ⟨[], rfl⟩
  | cons a l ih =>
    by_cases hp : p a = true
    · obtain ⟨t, ht⟩ := ih
      exact ⟨a :: t, by simp [List.dropWhile_cons_of_pos hp, ht]⟩
    · exact ⟨[], by simp [List.dropWhile_cons_of_neg hp]⟩

theorem dropWhile_subset_mem {α : Type} (p : α → Bool) (l : List α) :
    ∀ c ∈ l.dropWhile p, c ∈ l := by
  obtain ⟨t, ht⟩ := dropWhile_suffix_ex p l
  intro c hc
  rw [← ht]
  exact List.mem_append_right t hc

/-- C8 (amended): whitespace normalization removes every non-breaking
space, trims leading and trailing whitespace, and otherwise only deletes
characters from the two ends: the result is an infix of the input with
all NBSP characters filtered out (so interior ordinary spaces survive). -/
theorem C8_strip_spaces (s : String) :
    ('\xa0' ∉ (strip_spaces s).toList) ∧
    (∀ c, (strip_spaces s).toList.head? = some c → pyIsSpace c = false) ∧
    (∀ c, (strip_spaces s).toList.getLast? = some c → pyIsSpace c = false) ∧
    ((strip_spaces s).toList <:+: s.toList.filter (fun c => !(c = '\xa0'))) := by
  have hlist : (strip_spaces s).toList
      = ((((s.toList.filter (fun c => !(c = '\xa0'))).dropWhile
            pyIsSpace).reverse.dropWhile pyIsSpace)).reverse := rfl
  obtain ⟨t2, ht2⟩ :=
    dropWhile_suffix_ex pyIsSpace (s.toList.filter (fun c => !(c = '\xa0')))
  obtain ⟨t, ht⟩ :=
    dropWhile_suffix_ex pyIsSpace
      ((s.toList.filter (fun c => !(c = '\xa0'))).dropWhile pyIsSpace).reverse
  have hApre :
      (((s.toList.filter (fun c => !(c = '\xa0'))).dropWhile
          pyIsSpace).reverse.dropWhile pyIsSpace).reverse ++ t.reverse
        = (s.toList.filter (fun c => !(c = '\xa0'))).dropWhile pyIsSpace := by
    have := congrArg List.reverse ht
    simpa using this
  refine ⟨?_, ?_, ?_, ?_⟩
  · intro hmem
    rw [hlist, List.mem_reverse] at hmem
    have h1 := dropWhile_subset_mem pyIsSpace _ _ hmem
    rw [List.mem_reverse] at h1
    have h2 := dropWhile_subset_mem pyIsSpace _ _ h1
    have := List.of_mem_filter h2
    simp at this
  · intro c hc
    rw [hlist] at hc
    rcases hrev :
        (((s.toList.filter (fun c => !(c = '\xa0'))).dropWhile
            pyIsSpace).reverse.dropWhile pyIsSpace).reverse with _ | ⟨b, bs⟩
    · rw [hrev] at hc; simp at hc
    · rw [hrev] at hc
      simp only [List.head?_cons, Option.some.injEq] at hc
      rw [hrev] at hApre
      rw [← hc]
      refine dropWhile_head_false pyIsSpace
        (s.toList.filter (fun c => !(c = '\xa0'))) b ?_
      rw [← hApre]
      rfl
  · intro c hc
    rw [hlist, List.getLast?_reverse] at hc
    exact dropWhile_head_false pyIsSpace _ c hc
  · rw [hlist]
    refine ⟨t2, t.reverse, ?_⟩
    rw [List.append_assoc, hApre, ht2]

/-- C8 witness: on `" a\xa0b "`, normalization yields `"ab"`: no NBSP
left, non-whitespace first and last characters. -/
theorem C8_strip_spaces_witness :
    ('\xa0' ∉ (strip_spaces " a\xa0b ").toList) ∧
    pyIsSpace 'a' = false ∧ pyIsSpace 'b' = false :=
  ⟨(C8_strip_spaces " a\xa0b ").1,
   (C8_strip_spaces " a\xa0b ").2.1 'a' (by decide),
   (C8_strip_spaces " a\xa0b ").2.2.1 'b' (by decide)⟩

/-- C8 counterexample: the claim says normalization removes ordinary
space characters, but `_strip_spaces` keeps interior spaces: on `"a b"`
the space survives. -/
theorem C8_counterexample :
    strip_spaces "a b" = "a b" ∧ ' ' ∈ (strip_spaces "a b").toList := by
  exact ⟨by decide, by decide⟩

theorem isDig_bounds {c : Char} (h : isDig c = true) :
    48 ≤ c.toNat ∧ c.toNat ≤ 57 := by
  simpa [isDig] using h

theorem isDig_ne_of {c d : Char} (h : isDig c = true) (hd : isDig d = false) :
    c ≠ d := by
  intro he
  rw [he, hd] at h
  cases h

theorem isDig_not_space {c : Char} (h : isDig c = true) : pyIsSpace c = false := by
  simp [pyIsSpace,
    isDig_ne_of h (by decide : isDig ' ' = false),
    isDig_ne_of h (by decide : isDig '\t' = false),
    isDig_ne_of h (by decide : isDig '\n' = false),
    isDig_ne_of h (by decide : isDig '\r' = false),
    isDig_ne_of h (by decide : isDig '\x0b' = false),
    isDig_ne_of h (by decide : isDig '\x0c' = false),
    isDig_ne_of h (by decide : isDig '\x85' = false),
    isDig_ne_of h (by decide : isDig '\xa0' = false)]

theorem lowerAscii_digit {c : Char} (h : isDig c = true) : lowerAscii c = c := by
  have hb := isDig_bounds h
  unfold lowerAscii
  rw [if_neg]
  omega

theorem dropWhile_no_ws {l : List Char} (h : ∀ c ∈ l, pyIsSpace c = false) :
    l.dropWhile pyIsSpace = l := by
  cases l with
  | nil => rfl
  | cons a l =>
      exact List.dropWhile_cons_of_neg
        (by simp [h a (List.mem_cons_self a l)])

theorem stripList_no_ws {l : List Char} (h : ∀ c ∈ l, pyIsSpace c = false) :
    pyStripList l = l := by
  unfold pyStripList
  rw [dropWhile_no_ws h,
    dropWhile_no_ws (fun c hc => h c (List.mem_reverse.mp hc)),
    List.reverse_reverse]

theorem dropWhile_all_ws {l : List Char} (h : ∀ c ∈ l, pyIsSpace c = true) :
    l.dropWhile pyIsSpace = [] := by
  induction l with
  | nil => rfl
  | cons a l ih =>
      rw [List.dropWhile_cons_of_pos (h a (List.mem_cons_self a l))]
      exact ih (fun c hc => h c (List.mem_cons_of_mem a hc))

theorem stripList_all_ws {l : List Char} (h : ∀ c ∈ l, pyIsSpace c = true) :
    pyStripList l = [] := by
  unfold pyStripList
  rw [dropWhile_all_ws h]
  rfl

theorem splitExp_no_e {l : List Char} (h : ∀ c ∈ l, c ≠ 'e' ∧ c ≠ 'E') :
    splitExp l = (l, Option.none) := by
  induction l with
  | nil => rfl
  | cons a l ih =>
      have ha := h a (List.mem_cons_self a l)
      simp [splitExp, ha.1, ha.2, ih (fun c hc => h c (List.mem_cons_of_mem a hc))]

theorem splitDot_no_dot {l : List Char} (h : ∀ c ∈ l, c ≠ '.') :
    splitDot l = (l, Option.none) := by
  induction l with
  | nil => rfl
  | cons a l ih =>
      simp [splitDot, h a (List.mem_cons_self a l),
        ih (fun c hc => h c (List.mem_cons_of_mem a hc))]

theorem splitDot_append {a b : List Char} (h : ∀ c ∈ a, c ≠ '.') :
    splitDot (a ++ '.' :: b) = (a, some b) := by
  induction a with
  | nil => simp [splitDot]
  | cons x a ih =>
      simp [splitDot, h x (List.mem_cons_self x a),
        ih (fun c hc => h c (List.mem_cons_of_mem x hc))]

theorem validTail_digits : ∀ {l : List Char},
    (∀ c ∈ l, isDig c = true) → validTail l = true := by
  intro l
  induction l with
  | nil => intro _; rfl
  | cons a l ih =>
      intro h
      cases l with
      | nil => simpa [validTail] using h a (List.mem_cons_self a [])
      | cons b m =>
          have hrec := ih (fun c hc => h c (List.mem_cons_of_mem a hc))
          simp [validTail, h a (List.mem_cons_self a (b :: m)), hrec]

theorem validRun_digits {l : List Char} (h : ∀ c ∈ l, isDig c = true) :
    validRun l = true := by
  cases l with
  | nil => rfl
  | cons a l =>
      simp [validRun, h a (List.mem_cons_self a l),
        validTail_digits (fun c hc => h c (List.mem_cons_of_mem a hc))]

theorem runDigits_digits {l : List Char} (h : ∀ c ∈ l, isDig c = true) :
    runDigits l = l.length := by
  unfold runDigits
  rw [List.filter_eq_self.mpr h]

theorem splitSign_digit {a : Char} {l : List Char} (h : isDig a = true) :
    splitSign (a :: l) = (false, a :: l) := by
  simp [splitSign, isDig_ne_of h (by decide : isDig '-' = false),
    isDig_ne_of h (by decide : isDig '+' = false)]

theorem map_lower_head_digit {a : Char} {l : List Char} (h : isDig a = true) :
    ((a :: l).map lowerAscii = ['i', 'n', 'f']) = False ∧
    ((a :: l).map lowerAscii = ['i', 'n', 'f', 'i', 'n', 'i', 't', 'y']) = False ∧
    ((a :: l).map lowerAscii = ['n', 'a', 'n']) = False := by
  have hl := lowerAscii_digit h
  refine ⟨?_, ?_, ?_⟩ <;>
    (simp only [List.map_cons, List.cons.injEq, eq_iff_iff, iff_false, not_and]
     intro h1
     exfalso
     rw [hl] at h1)
  · exact isDig_ne_of h (by decide : isDig 'i' = false) h1
  · exact isDig_ne_of h (by decide : isDig 'i' = false) h1
  · exact isDig_ne_of h (by decide : isDig 'n' = false) h1

/-- C1 (amended): the numeric test accepts a value exactly when Python's
`float()` conversion succeeds: every native float cell is accepted —
including the NaN cell, even though it counts as blank — integer-looking
and float-looking text is accepted, while `None`, whitespace-only strings,
and text outside the float grammar (by definition of the parse) are
rejected. -/
theorem C1_numeric_test :
    (∀ f, is_number (Cell.float f) = true) ∧
    (is_number Cell.none = false) ∧
    (∀ s : String, s.toList ≠ [] → (∀ c ∈ s.toList, isDig c = true) →
      is_number (Cell.str s) = true) ∧
    (∀ a b : String, a.toList ≠ [] → (∀ c ∈ a.toList, isDig c = true) →
      (∀ c ∈ b.toList, isDig c = true) →
      is_number (Cell.str (a ++ "." ++ b)) = true) ∧
    (∀ s : String, (∀ c ∈ s.toList, pyIsSpace c = true) →
      is_number (Cell.str s) = false) ∧
    (is_number (Cell.str "단백질") = false) := by
  refine ⟨fun f => rfl, rfl, ?_, ?_, ?_, by decide⟩
  · intro s hne h
    obtain ⟨a, l, hl⟩ : ∃ a l, s.data = a :: l := by
      cases hsl : s.data with
      | nil => exact absurd hsl hne
      | cons a l => exact ⟨a, l, rfl⟩
    have h' : ∀ c ∈ a :: l, isDig c = true := hl ▸ h
    have ha : isDig a = true := h' a (List.mem_cons_self a l)
    have hnw : ∀ c ∈ s.data, pyIsSpace c = false :=
      fun c hc => isDig_not_space (h c hc)
    have hstrip : pyStripList s.data = a :: l := by
      rw [stripList_no_ws hnw, hl]
    have hsign : splitSign (a :: l) = (false, a :: l) := splitSign_digit ha
    have hexp : splitExp (a :: l) = (a :: l, Option.none) :=
      splitExp_no_e (fun c hc =>
        ⟨isDig_ne_of (h' c hc) (by decide), isDig_ne_of (h' c hc) (by decide)⟩)
    have hdot : splitDot (a :: l) = (a :: l, Option.none) :=
      splitDot_no_dot (fun c hc => isDig_ne_of (h' c hc) (by decide))
    have hvr : validRun (a :: l) = true := validRun_digits h'
    have hfil : List.filter isDig (a :: l) = a :: l := List.filter_eq_self.mpr h'
    simp [is_number, pyFloat?, pyStrToFloat?, hstrip, hsign, hexp, hdot, hvr,
      lowerAscii_digit ha, isDig_ne_of ha (by decide : isDig 'i' = false),
      isDig_ne_of ha (by decide : isDig 'n' = false), runDigits, hfil,
      validRun, Nat.le_add_left]
    exact ⟨ha, validTail_digits (fun c hc => h' c (List.mem_cons_of_mem a hc))⟩
  · intro a b hne ha hb
    obtain ⟨x, xs, hx⟩ : ∃ x xs, a.data = x :: xs := by
      cases hsl : a.data with
      | nil => exact absurd hsl hne
      | cons x xs => exact ⟨x, xs, rfl⟩
    have ha' : ∀ c ∈ x :: xs, isDig c = true := hx ▸ ha
    have hxd : isDig x = true := ha' x (List.mem_cons_self x xs)
    have hall : ∀ c ∈ x :: (xs ++ '.' :: b.data), isDig c = true ∨ c = '.' := by
      intro c hc
      rcases List.mem_cons.mp hc with h1 | h1
      · exact Or.inl (h1 ▸ hxd)
      · rcases List.mem_append.mp h1 with h2 | h2
        · exact Or.inl (ha' c (List.mem_cons_of_mem x h2))
        · rcases List.mem_cons.mp h2 with h3 | h3
          · exact Or.inr h3
          · exact Or.inl (hb c h3)
    have hnw : ∀ c ∈ x :: (xs ++ '.' :: b.data), pyIsSpace c = false := by
      intro c hc
      rcases hall c hc with h1 | h1
      · exact isDig_not_space h1
      · rw [h1]; decide
    have hL : a.data ++ '.' :: b.data = x :: (xs ++ '.' :: b.data) := by
      rw [hx]; rfl
    have hstrip : pyStripList (a.data ++ '.' :: b.data)
        = x :: (xs ++ '.' :: b.data) := by
      rw [hL]; exact stripList_no_ws hnw
    have hsign : splitSign (x :: (xs ++ '.' :: b.data))
        = (false, x :: (xs ++ '.' :: b.data)) := splitSign_digit hxd
    have hexp : splitExp (x :: (xs ++ '.' :: b.data))
        = (x :: (xs ++ '.' :: b.data), Option.none) := by
      refine splitExp_no_e ?_
      intro c hc
      rcases hall c hc with h1 | h1
      · exact ⟨isDig_ne_of h1 (by decide), isDig_ne_of h1 (by decide)⟩
      · rw [h1]; exact ⟨by decide, by decide⟩
    have hdot : splitDot (x :: (xs ++ '.' :: b.data)) = (x :: xs, some b.data) := by
      have hnd : ∀ c ∈ x :: xs, c ≠ '.' :=
        fun c hc => isDig_ne_of (ha' c hc) (by decide)
      have h2 := splitDot_append (b := b.data) hnd
      simpa using h2
    have hvr1 : validRun (x :: xs) = true := validRun_digits ha'
    have hvr2 : validRun b.data = true := validRun_digits hb
    have hrd1 : runDigits (x :: xs) = xs.length + 1 := by
      rw [runDigits_digits ha']
      rfl
    have hcond : 1 ≤ runDigits (x :: xs) + runDigits b.data := by
      rw [hrd1]; omega
    simp [is_number, pyFloat?, pyStrToFloat?, hstrip, hsign, hexp, hdot, hvr1,
      hvr2, hcond, lowerAscii_digit hxd,
      isDig_ne_of hxd (by decide : isDig 'i' = false),
      isDig_ne_of hxd (by decide : isDig 'n' = false)]
  · intro s h
    have hstrip : pyStripList s.data = [] := stripList_all_ws h
    simp [is_number, pyFloat?, pyStrToFloat?, hstrip, splitSign, splitExp,
      splitDot, runDigits, validRun]

/-- C1 witness: concrete evaluations through the theorem. -/
theorem C1_numeric_test_witness :
    is_number (Cell.str "150") = true ∧
    is_number (Cell.str ("3" ++ "." ++ "5")) = true ∧
    is_number (Cell.str " ") = false :=
  ⟨C1_numeric_test.2.2.1 "150" (by decide) (by decide),
   C1_numeric_test.2.2.2.1 "3" "5" (by decide) (by decide) (by decide),
   C1_numeric_test.2.2.2.2.1 " " (by decide)⟩

/-- C1 counterexample: the claim says the numeric test rejects every blank
value including the NaN-equivalent, but `float(nan)` succeeds, so the NaN
cell is blank yet accepted by `_is_number`. -/
theorem C1_counterexample :
    is_blank (Cell.float PFloat.nan) = true ∧
    is_number (Cell.float PFloat.nan) = true := by
  decide

/-- C2: the filtered output is exactly the order-preserving subsequence of
the scanner's raw record sequence keeping the records with at least one
macro field present: it is a sublist, every retained record has some macro
field present, every raw record with some field present is retained, and
every dropped record has all four absent. -/
theorem C2_filter_invariant (g : Grid) :
    (filterRecords (parse_diet_file g)).Sublist (parse_diet_file g) ∧
    (∀ r ∈ filterRecords (parse_diet_file g), allNA r = false) ∧
    (∀ r ∈ parse_diet_file g, allNA r = false →
      r ∈ filterRecords (parse_diet_file g)) ∧
    (∀ r ∈ parse_diet_file g, allNA r = true →
      r ∉ filterRecords (parse_diet_file g)) := by
  unfold filterRecords
  refine ⟨List.filter_sublist _, ?_, ?_, ?_⟩
  · intro r hr
    have h1 := List.of_mem_filter hr
    simpa using h1
  · intro r hr h
    refine List.mem_filter.mpr ⟨hr, ?_⟩
    simp [h]
  · intro r _ h hmem
    have h1 := List.of_mem_filter hmem
    simp [h] at h1

/-- C2 witness: on the concrete sheet `gW10` the surviving record is
retained by the filter. -/
theorem C2_filter_invariant_witness :
    rW10 ∈ List.filter (fun r => !allNA r) (parse_diet_file gW10) :=
  (C2_filter_invariant gW10).2.2.1 rW10 (by decide) (by decide)

/-- C9: section keyword matching uses the source's fixed `elif` priority:
Breakfast (아침) wins over everything, then Lunch (점심), then Dinner
(저녁), then Snack/Other (간식/기타, 간식기타); with no keyword the cursor
is unchanged. -/
theorem C9_section_priority (s : String) (cur : Option String) :
    (strContains (strip_spaces s) "아침" = true →
      updateMeal (Cell.str s) cur = some "아침 식사") ∧
    (strContains (strip_spaces s) "아침" = false →
      strContains (strip_spaces s) "점심" = true →
      updateMeal (Cell.str s) cur = some "점심 식사") ∧
    (strContains (strip_spaces s) "아침" = false →
      strContains (strip_spaces s) "점심" = false →
      strContains (strip_spaces s) "저녁" = true →
      updateMeal (Cell.str s) cur = some "저녁 식사") ∧
    (strContains (strip_spaces s) "아침" = false →
      strContains (strip_spaces s) "점심" = false →
      strContains (strip_spaces s) "저녁" = false →
      (strContains (strip_spaces s) "간식/기타" = true ∨
        strContains (strip_spaces s) "간식기타" = true) →
      updateMeal (Cell.str s) cur = some "간식/기타") ∧
    (strContains (strip_spaces s) "아침" = false →
      strContains (strip_spaces s) "점심" = false →
      strContains (strip_spaces s) "저녁" = false →
      strContains (strip_spaces s) "간식/기타" = false →
      strContains (strip_spaces s) "간식기타" = false →
      updateMeal (Cell.str s) cur = cur) := by
  refine ⟨?_, ?_, ?_, ?_, ?_⟩
  · intro h1
    simp [updateMeal, h1]
  · intro h1 h2
    simp [updateMeal, h1, h2]
  · intro h1 h2 h3
    simp [updateMeal, h1, h2, h3]
  · intro h1 h2 h3 h4
    rcases h4 with h4 | h4 <;> simp [updateMeal, h1, h2, h3, h4]
  · intro h1 h2 h3 h4 h5
    simp [updateMeal, h1, h2, h3, h4, h5]

/-- C9 witness: a cell containing both the Breakfast and the Lunch keyword
sets Breakfast, the higher-priority match. -/
theorem C9_section_priority_witness :
    strContains (strip_spaces "아침점심") "아침" = true ∧
    strContains (strip_spaces "아침점심") "점심" = true ∧
    updateMeal (Cell.str "아침점심") (some "저녁 식사") = some "아침 식사" :=
  ⟨by decide, by decide,
   (C9_section_priority "아침점심" (some "저녁 식사")).1 (by decide)⟩

theorem updateMeal_blank {c : Cell} (h : is_blank c = true) (cur : Option String) :
    updateMeal c cur = cur := by
  cases c with
  | none => rfl
  | float f => rfl
  | str s =>
      have hs : strip_spaces s = "" := by simpa [is_blank] using h
      have h1 : strContains "" "아침" = false := by decide
      have h2 : strContains "" "점심" = false := by decide
      have h3 : strContains "" "저녁" = false := by decide
      have h4 : strContains "" "간식/기타" = false := by decide
      have h5 : strContains "" "간식기타" = false := by decide
      simp [updateMeal, hs, h1, h2, h3, h4, h5]

theorem scanNonBlank_stop {g : Grid} {n r : Nat} (fuel : Nat)
    (h : n ≤ r ∨ is_blank (cellAt g r 0) = false) :
    scanNonBlank g n fuel r = r := by
  cases fuel with
  | zero => rfl
  | succ fuel =>
      rcases h with h | h
      · simp [scanNonBlank, Nat.not_lt.mpr h]
      · simp [scanNonBlank, h]

theorem scanNonBlank_step {g : Grid} {n r : Nat} (fuel : Nat)
    (hr : r < n) (hb : is_blank (cellAt g r 0) = true) :
    scanNonBlank g n (fuel + 1) r = scanNonBlank g n fuel (r + 1) := by
  simp [scanNonBlank, hr, hb]

theorem scanNonBlank_finds {g : Grid} {n : Nat} :
    ∀ fuel r k, r ≤ k → k ≤ r + fuel → k < n →
      (∀ j, r ≤ j → j < k → is_blank (cellAt g j 0) = true) →
      is_blank (cellAt g k 0) = false →
      scanNonBlank g n fuel r = k := by
  intro fuel
  induction fuel with
  | zero =>
      intro r k h1 h2 _ _ _
      have he : r = k := by omega
      rw [he]
      rfl
  | succ fuel ih =>
      intro r k h1 h2 h3 h4 h5
      rcases Nat.eq_or_lt_of_le h1 with he | hlt
      · rw [he]
        exact scanNonBlank_stop _ (Or.inr h5)
      · rw [scanNonBlank_step fuel (by omega) (h4 r le_rfl hlt)]
        exact ih (r + 1) k (by omega) (by omega) h3
          (fun j hj1 hj2 => h4 j (by omega) hj2) h5

theorem scanNonBlank_exhaust {g : Grid} {n : Nat} :
    ∀ fuel r, n ≤ r + fuel →
      (∀ j, r ≤ j → j < n → is_blank (cellAt g j 0) = true) →
      n ≤ scanNonBlank g n fuel r := by
  intro fuel
  induction fuel with
  | zero =>
      intro r h1 _
      simp [scanNonBlank]
      omega
  | succ fuel ih =>
      intro r h1 h2
      by_cases hr : r < n
      · rw [scanNonBlank_step fuel hr (h2 r le_rfl hr)]
        exact ih (r + 1) (by omega) (fun j hj1 hj2 => h2 j (by omega) hj2)
      · rw [scanNonBlank_stop _ (Or.inl (by omega))]
        omega

theorem parseRows_emit {g : Grid} {d : String} {n : Nat}
    (fuel i : Nat) (m : String) (cur : Option String)
    (hcur : updateMeal (cellAt g i 0) cur = some m)
    (hb : is_blank (cellAt g i 0) = true)
    (hmac : (macroCells g i).any is_number = true)
    (hscan : scanNonBlank g n n (i + 1) < n) :
    parseRows g d n (fuel + 1) i cur =
      { date := d,
        name := strip_spaces (pyStr (cellAt g (scanNonBlank g n n (i + 1)) 0)),
        qty :=
          if scanNonBlank g n n (scanNonBlank g n n (i + 1) + 1) < n ∧
              is_blank
                (cellAt g (scanNonBlank g n n (scanNonBlank g n n (i + 1) + 1)) 0)
                = false then
            strip_spaces
              (pyStr (cellAt g (scanNonBlank g n n (scanNonBlank g n n (i + 1) + 1)) 0))
          else "",
        meal := m,
        fat := pyFloat? (cellAt g i 1), carb := pyFloat? (cellAt g i 2),
        protein := pyFloat? (cellAt g i 3), cal := pyFloat? (cellAt g i 4) }
      :: parseRows g d n fuel (i + 1) (some m) := by
  simp [parseRows, hcur, hb, hmac, hscan]

/-- C3: with a macro row at `i` (cursor already on a section), a blank
column-0 at `i+1`, a name at `i+2`, a blank at `i+3` and a quantity at
`i+4`, the scanner emits for row `i` the record whose name is the
normalized text of row `i+2` and whose quantity is the normalized text of
row `i+4`. -/
theorem C3_lookahead_skip (g : Grid) (d : String) (n fuel i : Nat) (m : String)
    (hn : i + 4 < n)
    (h0 : is_blank (cellAt g i 0) = true)
    (hmac : (macroCells g i).any is_number = true)
    (h1 : is_blank (cellAt g (i + 1) 0) = true)
    (h2 : is_blank (cellAt g (i + 2) 0) = false)
    (h3 : is_blank (cellAt g (i + 3) 0) = true)
    (h4 : is_blank (cellAt g (i + 4) 0) = false) :
    parseRows g d n (fuel + 1) i (some m) =
      { date := d, name := strip_spaces (pyStr (cellAt g (i + 2) 0)),
        qty := strip_spaces (pyStr (cellAt g (i + 4) 0)), meal := m,
        fat := pyFloat? (cellAt g i 1), carb := pyFloat? (cellAt g i 2),
        protein := pyFloat? (cellAt g i 3), cal := pyFloat? (cellAt g i 4) }
      :: parseRows g d n fuel (i + 1) (some m) := by
  have hs1 : scanNonBlank g n n (i + 1) = i + 2 :=
    scanNonBlank_finds n (i + 1) (i + 2) (by omega) (by omega) (by omega)
      (fun j hj1 hj2 => by
        have hj : j = i + 1 := by omega
        rw [hj]; exact h1) h2
  have hs2 : scanNonBlank g n n (i + 3) = i + 4 :=
    scanNonBlank_finds n (i + 3) (i + 4) (by omega) (by omega) (by omega)
      (fun j hj1 hj2 => by
        have hj : j = i + 3 := by omega
        rw [hj]; exact h3) h4
  have hcur : updateMeal (cellAt g i 0) (some m) = some m := updateMeal_blank h0 _
  rw [parseRows_emit fuel i m _ hcur h0 hmac (by rw [hs1]; omega)]
  have h23 : i + 2 + 1 = i + 3 := by omega
  simp only [hs1, h23, hs2]
  rw [if_pos ⟨by omega, h4⟩]

/-- C3 witness: the concrete five-row fragment. -/
theorem C3_lookahead_skip_witness :
    parseRows gW3 dW 5 5 0 (some "아침 식사") =
      { date := dW, name := "오트밀", qty := "1 그릇", meal := "아침 식사",
        fat := some (PFloat.fin 150), carb := some (PFloat.fin 20),
        protein := some (PFloat.fin 5), cal := some (PFloat.fin 180) }
      :: parseRows gW3 dW 5 4 1 (some "아침 식사") :=
  C3_lookahead_skip gW3 dW 5 4 0 "아침 식사" (by decide) (by decide) (by decide)
    (by decide) (by decide) (by decide) (by decide)

/-- C5: a macro row whose forward name lookahead exhausts the grid (every
later row has a blank column-0 cell) contributes no record at all: the
scan continues at the next row with the same cursor, emitting nothing. -/
theorem C5_name_exhausted (g : Grid) (d : String) (n fuel i : Nat)
    (cur : Option String)
    (h0 : is_blank (cellAt g i 0) = true)
    (hmac : (macroCells g i).any is_number = true)
    (hexh : ∀ j, i < j → j < n → is_blank (cellAt g j 0) = true) :
    parseRows g d n (fuel + 1) i cur = parseRows g d n fuel (i + 1) cur := by
  have hcur := updateMeal_blank h0 cur
  have hs : n ≤ scanNonBlank g n n (i + 1) :=
    scanNonBlank_exhaust n (i + 1) (by omega)
      (fun j hj1 hj2 => hexh j (by omega) hj2)
  cases cur with
  | none => simp [parseRows, hcur, h0, hmac]
  | some m => simp [parseRows, hcur, h0, hmac, Nat.not_lt.mpr hs]

/-- C5 witness: on `gW5` the macro row at index 1 (last-but-one row, only
a blank row after it) emits nothing. -/
theorem C5_name_exhausted_witness :
    parseRows gW5 dW 3 2 1 (some "아침 식사") =
      parseRows gW5 dW 3 1 2 (some "아침 식사") :=
  C5_name_exhausted gW5 dW 3 1 1 (some "아침 식사") (by decide) (by decide)
    (fun j hj1 hj2 => by
      have hj : j = 2 := by omega
      rw [hj]; decide)

/-- C6: a macro row whose name lookahead finds row `k` but whose quantity
lookahead exhausts the grid still emits a record, with quantity equal to
the empty string. -/
theorem C6_missing_quantity (g : Grid) (d : String) (n fuel i k : Nat)
    (m : String)
    (hik : i < k) (hk : k < n)
    (h0 : is_blank (cellAt g i 0) = true)
    (hmac : (macroCells g i).any is_number = true)
    (hmid : ∀ j, i < j → j < k → is_blank (cellAt g j 0) = true)
    (hname : is_blank (cellAt g k 0) = false)
    (hexh : ∀ j, k < j → j < n → is_blank (cellAt g j 0) = true) :
    parseRows g d n (fuel + 1) i (some m) =
      { date := d, name := strip_spaces (pyStr (cellAt g k 0)), qty := "",
        meal := m,
        fat := pyFloat? (cellAt g i 1), carb := pyFloat? (cellAt g i 2),
        protein := pyFloat? (cellAt g i 3), cal := pyFloat? (cellAt g i 4) }
      :: parseRows g d n fuel (i + 1) (some m) := by
  have hs1 : scanNonBlank g n n (i + 1) = k :=
    scanNonBlank_finds n (i + 1) k (by omega) (by omega) hk
      (fun j hj1 hj2 => hmid j (by omega) hj2) hname
  have hs2 : n ≤ scanNonBlank g n n (k + 1) :=
    scanNonBlank_exhaust n (k + 1) (by omega)
      (fun j hj1 hj2 => hexh j (by omega) hj2)
  have hcur : updateMeal (cellAt g i 0) (some m) = some m := updateMeal_blank h0 _
  rw [parseRows_emit fuel i m _ hcur h0 hmac (by rw [hs1]; exact hk)]
  simp only [hs1]
  rw [if_neg (by intro hc; omega)]

/-- C6 witness: on `gW6` the macro row at 0 finds the name `사과` at row 1
and no quantity row; the record is emitted with `qty = ""`. -/
theorem C6_missing_quantity_witness :
    parseRows gW6 dW 3 3 0 (some "아침 식사") =
      { date := dW, name := "사과", qty := "", meal := "아침 식사",
        fat := some (PFloat.fin 2), carb := some PFloat.nan,
        protein := some PFloat.nan, cal := some PFloat.nan }
      :: parseRows gW6 dW 3 2 1 (some "아침 식사") :=
  C6_missing_quantity gW6 dW 3 2 0 1 "아침 식사" (by decide) (by decide)
    (by decide) (by decide)
    (fun j hj1 hj2 => by omega)
    (by decide)
    (fun j hj1 hj2 => by
      have hj : j = 2 := by omega
      rw [hj]; decide)

theorem parseRows_skip_none (g : Grid) (d : String) (n fuel i : Nat)
    (hup : updateMeal (cellAt g i 0) Option.none = Option.none) :
    parseRows g d n (fuel + 1) i Option.none
      = parseRows g d n fuel (i + 1) Option.none := by
  by_cases hb : is_blank (cellAt g i 0) = true
  · by_cases hm : (macroCells g i).any is_number = true
    · simp [parseRows, hb, hm, hup]
    · simp [parseRows, hb, hm, hup]
  · simp [parseRows, hb, hup]

theorem parseRows_skip_to (g : Grid) (d : String) (n : Nat) :
    ∀ k fuel i,
      (∀ j, i ≤ j → j < i + k →
        updateMeal (cellAt g j 0) Option.none = Option.none) →
      parseRows g d n (fuel + k) i Option.none
        = parseRows g d n fuel (i + k) Option.none := by
  intro k
  induction k with
  | zero => intro fuel i _; rfl
  | succ k ih =>
      intro fuel i h
      have h0 : updateMeal (cellAt g i 0) Option.none = Option.none :=
        h i le_rfl (by omega)
      have hfs : fuel + (k + 1) = (fuel + k) + 1 := by omega
      rw [hfs, parseRows_skip_none g d n (fuel + k) i h0]
      have h2 := ih fuel (i + 1) (fun j hj1 hj2 => h j (by omega) (by omega))
      rw [h2]
      congr 1
      omega

/-- C4: rows before the first section-keyword row contribute no records:
with the cursor starting undefined, the whole parse equals the parse that
starts at the first keyword row `m` with the cursor still undefined — so
any macro row before `m` is discarded regardless of its lookahead. -/
theorem C4_pre_keyword_skip (g : Grid) (m : Nat) (hm : m ≤ g.length)
    (hk : ∀ j, j < m → updateMeal (cellAt g j 0) Option.none = Option.none) :
    parse_diet_file g
      = parseRows g (dateStrOf g) g.length (g.length - m) m Option.none := by
  unfold parse_diet_file
  obtain ⟨f, hf⟩ : ∃ f, g.length = f + m := ⟨g.length - m, by omega⟩
  have h2 := parseRows_skip_to g (dateStrOf g) g.length m f 0
    (fun j hj1 hj2 => hk j (by omega))
  have hlen : g.length - m = f := by omega
  rw [hlen]
  nth_rewrite 2 [hf]
  rw [h2, Nat.zero_add]

/-- C4 witness: `gW4` has a macro row with a valid lookahead at row 0 and
its first keyword row at index 1; the parse equals the parse from row 1,
and in fact produces no record at all. -/
theorem C4_pre_keyword_skip_witness :
    (parse_diet_file gW4
      = parseRows gW4 (dateStrOf gW4) 2 1 1 Option.none) ∧
    parse_diet_file gW4 = [] :=
  ⟨C4_pre_keyword_skip gW4 1 (by decide)
    (fun j hj => by
      have hj0 : j = 0 := by omega
      rw [hj0]; decide),
   by decide⟩

theorem updateMeal_eq_section (c : Cell) (cur : Option String) :
    updateMeal c cur =
      match sectionOf c with
      | some m => some m
      | Option.none => cur := by
  cases c with
  | none => rfl
  | float f => rfl
  | str s =>
      simp only [sectionOf, updateMeal]
      split_ifs <;> rfl

theorem lastKeyword_succ (g : Grid) (i : Nat) :
    updateMeal (cellAt g i 0) (lastKeyword g i) = lastKeyword g (i + 1) := by
  rw [updateMeal_eq_section]
  rfl

theorem parseRows_meal_spec (g : Grid) (d : String) (n : Nat) :
    ∀ fuel i cur, cur = lastKeyword g i →
      ∀ r ∈ parseRows g d n fuel i cur,
        ∃ j, i ≤ j ∧ j < i + fuel ∧
          is_blank (cellAt g j 0) = true ∧
          (macroCells g j).any is_number = true ∧
          some r.meal = lastKeyword g (j + 1) := by
  intro fuel
  induction fuel with
  | zero =>
      intro i cur _ r hr
      simp [parseRows] at hr
  | succ fuel ih =>
      intro i cur hcur r hr
      have hcur2 : updateMeal (cellAt g i 0) cur = lastKeyword g (i + 1) := by
        rw [hcur]; exact lastKeyword_succ g i
      simp only [parseRows] at hr
      split at hr
      next hblank =>
        split at hr
        next hmac =>
          split at hr
          next heq =>
            obtain ⟨j, hj1, hj2, hj3, hj4, hj5⟩ := ih (i + 1) _ hcur2 r hr
            exact ⟨j, by omega, by omega, hj3, hj4, hj5⟩
          next meal heq =>
            split at hr
            next hlt =>
              rcases List.mem_cons.mp hr with hhead | htail
              · refine ⟨i, le_rfl, by omega, hblank, hmac, ?_⟩
                rw [hhead]
                show some meal = lastKeyword g (i + 1)
                rw [← heq]
                exact hcur2
              · obtain ⟨j, hj1, hj2, hj3, hj4, hj5⟩ := ih (i + 1) _ hcur2 r htail
                exact ⟨j, by omega, by omega, hj3, hj4, hj5⟩
            next hge =>
              obtain ⟨j, hj1, hj2, hj3, hj4, hj5⟩ := ih (i + 1) _ hcur2 r hr
              exact ⟨j, by omega, by omega, hj3, hj4, hj5⟩
        next hmac =>
          obtain ⟨j, hj1, hj2, hj3, hj4, hj5⟩ := ih (i + 1) _ hcur2 r hr
          exact ⟨j, by omega, by omega, hj3, hj4, hj5⟩
      next hblank =>
        obtain ⟨j, hj1, hj2, hj3, hj4, hj5⟩ := ih (i + 1) _ hcur2 r hr
        exact ⟨j, by omega, by omega, hj3, hj4, hj5⟩

/-- C7: every emitted record comes from a macro row `j`, and its meal
section is the section of the most recent keyword row at or before `j`
(`lastKeyword g (j+1)`); no ordering among sections is assumed, and
repeats are allowed, since `lastKeyword` just tracks the latest match. -/
theorem C7_section_cursor (g : Grid) :
    ∀ r ∈ parse_diet_file g,
      ∃ j, j < g.length ∧
        is_blank (cellAt g j 0) = true ∧
        (macroCells g j).any is_number = true ∧
        some r.meal = lastKeyword g (j + 1) := by
  intro r hr
  obtain ⟨j, _, hj2, hj3, hj4, hj5⟩ :=
    parseRows_meal_spec g (dateStrOf g) g.length g.length 0 Option.none rfl r hr
  exact ⟨j, by omega, hj3, hj4, hj5⟩

/-- C7 witness: the record of `gW10` comes from macro row 2 and carries
the section of the keyword row 1 (Breakfast). -/
theorem C7_section_cursor_witness :
    ∃ j, j < gW10.length ∧
      is_blank (cellAt gW10 j 0) = true ∧
      (macroCells gW10 j).any is_number = true ∧
      some rW10.meal = lastKeyword gW10 (j + 1) :=
  C7_section_cursor gW10 rW10 (by decide)

theorem parseRows_date (g : Grid) (d : String) (n : Nat) :
    ∀ fuel i cur r, r ∈ parseRows g d n fuel i cur → r.date = d := by
  intro fuel
  induction fuel with
  | zero =>
      intro i cur r hr
      simp [parseRows] at hr
  | succ fuel ih =>
      intro i cur r hr
      simp only [parseRows] at hr
      split at hr
      · split at hr
        · split at hr
          · exact ih _ _ r hr
          · split at hr
            · rcases List.mem_cons.mp hr with hhead | htail
              · rw [hhead]
              · exact ih _ _ r htail
            · exact ih _ _ r hr
        · exact ih _ _ r hr
      · exact ih _ _ r hr

/-- C10: every emitted record's date is the empty string when the date
cell (row 0, column 0) is Python `None`, and otherwise the
whitespace-normalized `str()` rendering of that cell's value — so a
non-string date cell (NaN, a number) yields its rendering, not an
error. -/
theorem C10_date_field (g : Grid) :
    ∀ r ∈ parse_diet_file g,
      r.date = (if cellAt g 0 0 = Cell.none then ""
                else strip_spaces (pyStr (cellAt g 0 0))) := by
  intro r hr
  exact parseRows_date g (dateStrOf g) g.length g.length 0 Option.none r hr

/-- C10 witness: `gW10`'s date cell is NaN (not `None`), and its record's
date is the rendering `"nan"`. -/
theorem C10_date_field_witness :
    rW10.date = (if cellAt gW10 0 0 = Cell.none then ""
                 else strip_spaces (pyStr (cellAt gW10 0 0))) :=
  C10_date_field gW10 rW10 (by decide)
